import Mathlib

/-!
Shallow embedding of the goldmark-admonitions renderer (renderer.go):
blockquote classification, nesting-level computation, and admonition
rendering, together with theorems checking the specification's claims.

Modelling conventions:
* goldmark AST nodes become a mutual inductive `GNode`/`GForest`; node
  identity (Go pointer identity, used as the level-map key) is modelled
  by the node's path from the tree root (list of child indices).
* The Go regexps are literal keyword patterns with the `(?i)` flag; they
  are modelled as case-insensitive (ASCII folding) substring / prefix
  tests on the pattern literal.
* A `Text` node's `Value(source)` and an `HTMLBlock`'s lines are stored
  directly on the node (the source-buffer indirection is dropped).
* The output `util.BufWriter` becomes `Sink`: a plan of per-write
  success flags plus the list of strings written so far.
-/

namespace Admonitions

/-- Node kinds relevant to the renderer (goldmark `ast.NodeKind`).
`admonition` stands for the extension's own Admonition node type, the
kind `RegisterFuncs` registers `renderAdmon` for; it is distinct from
`blockquote` (goldmark's `ast.KindBlockquote`). -/
inductive Kind where
| blockquote
| paragraph
| text
| htmlBlock
| admonition
| document
| other
deriving DecidableEq

/-- The `BlockQuoteType` enum from renderer.go. -/
inductive BlockQuoteType where
| Info
| Note
| Warn
| Tip
| None
deriving DecidableEq

/-- Go `BlockQuoteType.String()`: indexes the array
`["info", "note", "warning", "tip", "none"]`. -/
def BlockQuoteType.str : BlockQuoteType → String
| .Info => "info"
| .Note => "note"
| .Warn => "warning"
| .Tip => "tip"
| .None => "none"

/-- goldmark `ast.WalkStatus`. -/
inductive WalkStatus where
| walkContinue
| walkSkipChildren
| walkStop
deriving DecidableEq

mutual
/-- A document node: kind, text value (for Text nodes), lines (for
HTMLBlock nodes), rendered attribute string (`some` iff Go
`Attributes() != nil`), and children. -/
inductive GNode where
| mk : Kind → String → List String → Option String → GForest → GNode
/-- A list of sibling nodes. -/
inductive GForest where
| nil : GForest
| cons : GNode → GForest → GForest
end

def GNode.kind : GNode → Kind
| .mk k _ _ _ _ => k

def GNode.text : GNode → String
| .mk _ t _ _ _ => t

def GNode.lines : GNode → List String
| .mk _ _ l _ _ => l

def GNode.attrs : GNode → Option String
| .mk _ _ _ a _ => a

def GNode.children : GNode → GForest
| .mk _ _ _ _ cs => cs

/-- Build a forest from a list of nodes. -/
def forest : List GNode → GForest
| [] => .nil
| n :: rest => .cons n (forest rest)

/-- ASCII-folded characters of a string (the `(?i)` regexp flag). -/
def lowerStr (s : String) : List Char := s.data.map Char.toLower

/-- Whether the first list is a leading segment of the second. -/
def isPrefixL : List Char → List Char → Bool
| [], _ => true
| _ :: _, [] => false
| a :: as, b :: bs => a == b && isPrefixL as bs

/-- Whether the first list occurs contiguously anywhere in the second. -/
def containsL (pat : List Char) : List Char → Bool
| [] => isPrefixL pat []
| b :: bs => isPrefixL pat (b :: bs) || containsL pat bs

/-- Go `regexp.MustCompile("(?i)" + pat).MatchString s` for a literal
keyword `pat` (unanchored): case-insensitive substring test. -/
def matchAnywhereCI (pat : String) (s : String) : Bool :=
  containsL pat.data (lowerStr s)

/-- Go `regexp.MustCompile("(?i)^" + pat).MatchString s` for a literal
keyword `pat` anchored at the start: case-insensitive prefix test. -/
def matchAtStartCI (pat : String) (s : String) : Bool :=
  isPrefixL pat.data (lowerStr s)

/-- `BlockQuoteClassifier`: the four entries of `patternMap`
(info, note, warn, tip), each a compiled matcher. -/
structure BlockQuoteClassifier where
  info : String → Bool
  note : String → Bool
  warn : String → Bool
  tip : String → Bool

/-- `LegacyBlockQuoteClassifier()`: patterns `(?i)info`, `(?i)note`,
`(?i)warn`, `(?i)tip`. -/
def LegacyBlockQuoteClassifier : BlockQuoteClassifier :=
  ⟨matchAnywhereCI "info", matchAnywhereCI "note",
   matchAnywhereCI "warn", matchAnywhereCI "tip"⟩

/-- `GHAlertsBlockQuoteClassifier()`: patterns `(?i)^\!(note|important)`,
`(?i)^\!warning`, `(?i)^\!caution`, `(?i)^\!tip`. -/
def GHAlertsBlockQuoteClassifier : BlockQuoteClassifier :=
  ⟨fun s => matchAtStartCI "!note" s || matchAtStartCI "!important" s,
   matchAtStartCI "!warning", matchAtStartCI "!caution",
   matchAtStartCI "!tip"⟩

/-- `ClassifyingBlockQuote`: the priority switch over the pattern map. -/
def ClassifyingBlockQuote (classifier : BlockQuoteClassifier)
    (literal : String) : BlockQuoteType :=
  if classifier.info literal then .Info
  else if classifier.note literal then .Note
  else if classifier.warn literal then .Warn
  else if classifier.tip literal then .Tip
  else .None

mutual
/-- goldmark `ast.Walk` (`walkHelper`) on one node. The callback `f`
receives the state, the node, its path from the walk root, its
following siblings (for `NextSibling`), and the entering flag; it
returns the new state and a `WalkStatus`. The result's `Bool` is true
when the walk was stopped (`WalkStop`). -/
def walkN {σ : Type}
    (f : σ → GNode → List Nat → GForest → Bool → σ × WalkStatus)
    (st : σ) (n : GNode) (p : List Nat) (sibs : GForest) : σ × Bool :=
  match n with
  | .mk k t l a cs =>
    let r1 := f st (.mk k t l a cs) p sibs true
    match r1.2 with
    | .walkStop => (r1.1, true)
    | .walkSkipChildren =>
      let r3 := f r1.1 (.mk k t l a cs) p sibs false
      (r3.1, r3.2 = WalkStatus.walkStop)
    | .walkContinue =>
      let r2 := walkF f r1.1 cs p 0
      if r2.2 then (r2.1, true)
      else
        let r3 := f r2.1 (.mk k t l a cs) p sibs false
        (r3.1, r3.2 = WalkStatus.walkStop)

/-- `ast.Walk` over the children of a node whose path is `p`; `i` is the
index of the first node of `cs` among its siblings. -/
def walkF {σ : Type}
    (f : σ → GNode → List Nat → GForest → Bool → σ × WalkStatus)
    (st : σ) (cs : GForest) (p : List Nat) (i : Nat) : σ × Bool :=
  match cs with
  | .nil => (st, false)
  | .cons c rest =>
    let r1 := walkN f st c (p ++ [i]) rest
    if r1.2 then (r1.1, true) else walkF f r1.1 rest p (i + 1)
end

/-- The loop over an HTMLBlock's lines in `ParseBlockQuoteType`
(lines 143-149): `t` is reassigned from each line in turn and the loop
breaks at the first non-`None` result; with no lines `t` keeps its
previous value. -/
def classifyHTMLLines (t0 : BlockQuoteType) : List String → BlockQuoteType
| [] => t0
| l :: rest =>
  let t := ClassifyingBlockQuote LegacyBlockQuoteClassifier l
  if t ≠ BlockQuoteType.None then t else classifyHTMLLines t rest

/-- The walker closure inside `ParseBlockQuoteType` (lines 107-156).
State: the captured `t` and `countParagraphs`. -/
def pbqtStep (st : BlockQuoteType × Nat) (n : GNode) (_p : List Nat)
    (sibs : GForest) (entering : Bool) :
    (BlockQuoteType × Nat) × WalkStatus :=
  let t0 := st.1
  let cp := if n.kind = Kind.paragraph ∧ entering = true then st.2 + 1 else st.2
  if cp < 2 ∧ entering = true then
    if n.kind = Kind.text then
      let t1 := ClassifyingBlockQuote LegacyBlockQuoteClassifier n.text
      let t2 :=
        if t1 = BlockQuoteType.None then
          match sibs with
          | .cons mid rest =>
            if mid.kind = Kind.text then
              match rest with
              | .cons right _ =>
                if right.kind = Kind.text ∧ n.text = "[" ∧ right.text = "]"
                then ClassifyingBlockQuote GHAlertsBlockQuoteClassifier mid.text
                else t1
              | .nil => t1
            else t1
          | .nil => t1
        else t1
      ((t2, cp + 1), .walkContinue)
    else if n.kind = Kind.htmlBlock then
      ((classifyHTMLLines t0 n.lines, cp + 1), .walkContinue)
    else ((t0, cp), .walkContinue)
  else if 1 < cp ∧ entering = true then ((t0, cp), .walkStop)
  else ((t0, cp), .walkContinue)

/-- `ParseBlockQuoteType` (lines 101-159): walk the given node with the
classifying callback, starting from `t = None`, `countParagraphs = 0`.
The start node's own siblings are not represented (they are consulted
only for Text-kind nodes, and the function is applied to block-level
nodes). -/
def ParseBlockQuoteType (node : GNode) : BlockQuoteType :=
  (walkN pbqtStep (BlockQuoteType.None, 0) node [] GForest.nil).1.1

/-- `BlockQuoteLevelMap` (`map[ast.Node]int`): node identity is a path
(list of child indices) from the tree root; insertion order is the walk
order, and keys are inserted at most once. -/
abbrev BlockQuoteLevelMap := List (List Nat × Int)

/-- Lookup of a key in the level map. -/
def lookupL (p : List Nat) : BlockQuoteLevelMap → Option Int
| [] => none
| e :: rest => if e.1 = p then some e.2 else lookupL p rest

/-- `BlockQuoteLevelMap.Level`: Go map indexing `m[node]`, which yields
the zero value 0 when the key is absent. -/
def Level (m : BlockQuoteLevelMap) (p : List Nat) : Int :=
  (lookupL p m).getD 0

/-- The walker closure inside `GenerateBlockQuoteLevel` (lines 172-181).
State: the captured `blockQuoteLevel` and `blockQuoteLevelMap`. -/
def genStep (st : Int × BlockQuoteLevelMap) (n : GNode) (p : List Nat)
    (_sibs : GForest) (entering : Bool) :
    (Int × BlockQuoteLevelMap) × WalkStatus :=
  let st1 := if n.kind = Kind.blockquote ∧ entering = true
    then (st.1 + 1, st.2 ++ [(p, st.1)]) else st
  let st2 := if n.kind = Kind.blockquote ∧ entering = false
    then (st1.1 - 1, st1.2) else st1
  (st2, .walkContinue)

/-- `GenerateBlockQuoteLevel` (lines 162-183). The Go function first
follows parent links from its argument up to the tree root and walks
that root; in this parent-pointer-free embedding the caller passes the
tree root directly (the climb loop's result). -/
def GenerateBlockQuoteLevel (rootNode : GNode) : BlockQuoteLevelMap :=
  (walkN genStep (0, ([] : BlockQuoteLevelMap)) rootNode [] GForest.nil).1.2

/-- Child of a forest at an index. -/
def childAt : GForest → Nat → Option GNode
| .nil, _ => none
| .cons c _, 0 => some c
| .cons _ rest, j + 1 => childAt rest j

/-- Node of a tree at a path of child indices. -/
def nodeAtN (n : GNode) : List Nat → Option GNode
| [] => some n
| j :: r =>
  match childAt n.children j with
  | some c => nodeAtN c r
  | none => none

/-- Kind of the node at a path, when the path is valid. -/
def kindAt (n : GNode) (p : List Nat) : Option Kind :=
  (nodeAtN n p).map GNode.kind

/-- Number of blockquote-kind nodes among the proper ancestors (along a
path) of the position `p` inside `n`, `n` itself included. -/
def bqAncCount : GNode → List Nat → Int
| _, [] => 0
| n, j :: r =>
  match childAt n.children j with
  | some c => (if n.kind = Kind.blockquote then 1 else 0) + bqAncCount c r
  | none => 0

/-- The output sink (`util.BufWriter`): a plan of per-write success
flags (an empty plan means every write succeeds) and the strings
written so far. -/
structure Sink where
  plan : List Bool
  out : List String
deriving DecidableEq

/-- One write to the sink; returns the new sink and whether the write
succeeded (a failed write appends nothing). -/
def writeS (s : String) (w : Sink) : Sink × Bool :=
  match w.plan with
  | [] => (⟨[], w.out ++ [s]⟩, true)
  | ok :: rest => (⟨rest, if ok then w.out ++ [s] else w.out⟩, ok)

/-- `renderAdmonition` (lines 212-226). The leading type assertion
`node.(*Admonition)` panics when the node's dynamic type is not
`*Admonition` (kind `admonition`); the panic is modelled as `none`.
`html.RenderAttributes` is a host utility, modelled as one write of the
node's rendered attribute string. Every write's error is discarded
(`_, _ =`), and the result is `(WalkContinue, nil)` — the `Bool` in the
result is the Go error value (`true` = non-nil error). -/
def renderAdmonition (node : GNode) (entering : Bool) (w : Sink) :
    Option (Sink × WalkStatus × Bool) :=
  if node.kind = Kind.admonition then
    some
      (if entering then
        match node.attrs with
        | some a =>
          let r1 := writeS "<blockquote" w
          let r2 := writeS a r1.1
          let r3 := writeS ">" r2.1
          (r3.1, WalkStatus.walkContinue, false)
        | none => ((writeS "<blockquote>\n" w).1, WalkStatus.walkContinue, false)
      else ((writeS "</blockquote>\n" w).1, WalkStatus.walkContinue, false))
  else none

/-- `renderAdmon` (lines 186-210). `r` is the renderer's cached
`LevelMap` (`none` = Go `nil`, lazily recomputed from the tree root);
`rootNode` is the root of the tree containing the visited node,
`p` the visited node's path (its identity) and `node` the node itself.
Returns the updated cache and either `none` (a panic from the
fall-through `renderAdmonition`) or the new sink, the `WalkStatus` and
the Go error value (`true` = non-nil). -/
def renderAdmon (r : Option BlockQuoteLevelMap) (rootNode : GNode)
    (p : List Nat) (node : GNode) (entering : Bool) (w : Sink) :
    Option BlockQuoteLevelMap × Option (Sink × WalkStatus × Bool) :=
  let lm := match r with
    | none => GenerateBlockQuoteLevel rootNode
    | some m => m
  let quoteType := ParseBlockQuoteType node
  let quoteLevel := Level lm p
  if quoteLevel = 0 ∧ entering = true ∧ quoteType ≠ BlockQuoteType.None then
    let pre := "<ac:structured-macro ac:name=\"" ++ BlockQuoteType.str quoteType
      ++ "\"><ac:parameter ac:name=\"icon\">true</ac:parameter><ac:rich-text-body>\n"
    let res := writeS pre w
    if res.2 then (some lm, some (res.1, WalkStatus.walkContinue, false))
    else (some lm, some (res.1, WalkStatus.walkStop, true))
  else if quoteLevel = 0 ∧ entering = false ∧ quoteType ≠ BlockQuoteType.None then
    let res := writeS "</ac:rich-text-body></ac:structured-macro>\n" w
    if res.2 then (some lm, some (res.1, WalkStatus.walkContinue, false))
    else (some lm, some (res.1, WalkStatus.walkStop, true))
  else
    (some lm, renderAdmonition node entering w)

mutual
/-- The level-map entries produced below the node `n` sitting at path
`p` with `lvl` enclosing blockquotes already open: `n` itself (when it
is a blockquote) followed by the entries of its subtree in walk order. -/
def bqEntriesN : GNode → List Nat → Int → BlockQuoteLevelMap
| .mk k _ _ _ cs, p, lvl =>
  if k = Kind.blockquote then (p, lvl) :: bqEntriesF cs p 0 (lvl + 1)
  else bqEntriesF cs p 0 lvl

/-- Entries produced below a forest of siblings, the first of which is
child number `i` of the node at path `p`. -/
def bqEntriesF : GForest → List Nat → Nat → Int → BlockQuoteLevelMap
| .nil, _, _, _ => []
| .cons c rest, p, i, lvl =>
  bqEntriesN c (p ++ [i]) lvl ++ bqEntriesF rest p (i + 1) lvl
end

mutual
/-- The `GenerateBlockQuoteLevel` walk appends exactly the entries of
`bqEntriesN` and restores the level counter. -/
theorem walkN_gen (n : GNode) (p : List Nat) (sibs : GForest) (lvl : Int)
    (m : BlockQuoteLevelMap) :
    walkN genStep (lvl, m) n p sibs = ((lvl, m ++ bqEntriesN n p lvl), false) := by
  cases n with
  | mk k t l a cs =>
    by_cases hk : k = Kind.blockquote
    · subst hk
      simp [walkN, genStep, bqEntriesN, GNode.kind,
        walkF_gen cs p 0 (lvl + 1) (m ++ [(p, lvl)])]
    · simp [walkN, genStep, bqEntriesN, GNode.kind, hk,
        walkF_gen cs p 0 lvl m]

/-- Forest version of `walkN_gen`. -/
theorem walkF_gen (cs : GForest) (p : List Nat) (i : Nat) (lvl : Int)
    (m : BlockQuoteLevelMap) :
    walkF genStep (lvl, m) cs p i = ((lvl, m ++ bqEntriesF cs p i lvl), false) := by
  cases cs with
  | nil => simp [walkF, bqEntriesF]
  | cons c rest =>
    simp [walkF, bqEntriesF, walkN_gen c (p ++ [i]) rest lvl m,
      walkF_gen rest p (i + 1) lvl (m ++ bqEntriesN c (p ++ [i]) lvl)]
end

/-- `GenerateBlockQuoteLevel` computes exactly the spec-side entries. -/
theorem gen_eq_bqEntries (rootNode : GNode) :
    GenerateBlockQuoteLevel rootNode = bqEntriesN rootNode [] 0 := by
  simp [GenerateBlockQuoteLevel, walkN_gen rootNode [] GForest.nil 0 []]

/-- Lookup distributes over append, first list first. -/
theorem lookupL_append (key : List Nat) (l1 l2 : BlockQuoteLevelMap) :
    lookupL key (l1 ++ l2) =
      match lookupL key l1 with
      | some v => some v
      | none => lookupL key l2 := by
  induction l1 with
  | nil => simp [lookupL]
  | cons e rest ih =>
    by_cases h : e.1 = key <;> simp [lookupL, h, ih]

/-- Lookup misses when no entry carries the key. -/
theorem lookupL_eq_none (key : List Nat) (l : BlockQuoteLevelMap)
    (h : ∀ e ∈ l, e.1 ≠ key) : lookupL key l = none := by
  induction l with
  | nil => rfl
  | cons e rest ih =>
    simp [lookupL, h e (List.mem_cons_self e rest)]
    exact ih fun e2 h2 => h e2 (List.mem_cons_of_mem e h2)

mutual
/-- Every key produced below a node extends that node's path. -/
theorem keysN (n : GNode) (p : List Nat) (lvl : Int) :
    ∀ e ∈ bqEntriesN n p lvl, ∃ q, e.1 = p ++ q := by
  cases n with
  | mk k t lns a cs =>
    intro e he
    by_cases hk : k = Kind.blockquote
    · rw [bqEntriesN] at he
      simp only [hk, if_pos rfl] at he
      rcases List.mem_cons.mp he with h | h
      · exact ⟨[], by simp [h]⟩
      · obtain ⟨j, r, _, hkey⟩ := keysF cs p 0 (lvl + 1) e h
        exact ⟨j :: r, hkey⟩
    · rw [bqEntriesN] at he
      simp only [hk, if_neg hk] at he
      obtain ⟨j, r, _, hkey⟩ := keysF cs p 0 lvl e he
      exact ⟨j :: r, hkey⟩

/-- Every key produced below a forest starting at child index `i`
extends the parent path with a first index at least `i`. -/
theorem keysF (cs : GForest) (p : List Nat) (i : Nat) (lvl : Int) :
    ∀ e ∈ bqEntriesF cs p i lvl, ∃ j r, i ≤ j ∧ e.1 = p ++ (j :: r) := by
  cases cs with
  | nil => intro e he; simp [bqEntriesF] at he
  | cons c rest =>
    intro e he
    rw [bqEntriesF] at he
    rcases List.mem_append.mp he with h | h
    · obtain ⟨q, hq⟩ := keysN c (p ++ [i]) lvl e h
      exact ⟨i, q, le_refl i, by simp [hq]⟩
    · obtain ⟨j, r, hj, hkey⟩ := keysF rest p (i + 1) lvl e h
      exact ⟨j, r, by omega, hkey⟩
end

mutual
/-- Value of a key in the entries below a node: present exactly for the
blockquote positions, with value `lvl` plus the number of blockquote
ancestors inside the subtree. -/
theorem lookupN (n : GNode) (p : List Nat) (lvl : Int) (q : List Nat) :
    lookupL (p ++ q) (bqEntriesN n p lvl) =
      if kindAt n q = some Kind.blockquote then some (lvl + bqAncCount n q)
      else none := by
  cases n with
  | mk k t lns a cs =>
    by_cases hk : k = Kind.blockquote
    · subst hk
      cases q with
      | nil =>
        rw [bqEntriesN]
        simp [lookupL, kindAt, nodeAtN, GNode.kind, bqAncCount]
      | cons j r =>
        rw [bqEntriesN]
        rw [if_pos rfl]
        have hne : p ≠ p ++ (j :: r) := by simp
        simp only [lookupL, hne, if_neg hne]
        have hF := lookupF cs p 0 j (lvl + 1) r
        simp only [Nat.zero_add] at hF
        rw [hF]
        rw [kindAt, nodeAtN, bqAncCount]
        simp only [GNode.children, GNode.kind]
        cases hc : childAt cs j with
        | none => simp
        | some c =>
          simp only [kindAt]
          by_cases hck : (nodeAtN c r).map GNode.kind = some Kind.blockquote
          · simp [hck]; ring
          · simp [hck]
    · cases q with
      | nil =>
        rw [bqEntriesN]
        rw [if_neg hk]
        have : lookupL (p ++ []) (bqEntriesF cs p 0 lvl) = none := by
          apply lookupL_eq_none
          intro e he
          obtain ⟨j2, r2, _, hkey⟩ := keysF cs p 0 lvl e he
          simp [hkey]
        rw [this]
        simp [kindAt, nodeAtN, GNode.kind, hk]
      | cons j r =>
        rw [bqEntriesN]
        rw [if_neg hk]
        have hF := lookupF cs p 0 j lvl r
        simp only [Nat.zero_add] at hF
        rw [hF]
        rw [kindAt, nodeAtN, bqAncCount]
        simp only [GNode.children, GNode.kind, hk]
        cases hc : childAt cs j with
        | none => simp
        | some c =>
          simp only [kindAt]
          by_cases hck : (nodeAtN c r).map GNode.kind = some Kind.blockquote
          · simp [hck]
          · simp [hck]

/-- Value of a key in the entries below a forest starting at child
index `i`, for the key whose first index is `i + j`. -/
theorem lookupF (cs : GForest) (p : List Nat) (i j : Nat) (lvl : Int)
    (r : List Nat) :
    lookupL (p ++ ((i + j) :: r)) (bqEntriesF cs p i lvl) =
      match childAt cs j with
      | some c =>
        if kindAt c r = some Kind.blockquote then some (lvl + bqAncCount c r)
        else none
      | none => none := by
  cases cs with
  | nil => simp [bqEntriesF, lookupL, childAt]
  | cons c rest =>
    rw [bqEntriesF, lookupL_append]
    cases j with
    | zero =>
      have hkey : p ++ ((i + 0) :: r) = (p ++ [i]) ++ r := by simp
      rw [hkey]
      rw [lookupN c (p ++ [i]) lvl r]
      by_cases hck : kindAt c r = some Kind.blockquote
      · simp [hck, childAt]
      · simp only [hck, if_neg hck]
        have : lookupL ((p ++ [i]) ++ r) (bqEntriesF rest p (i + 1) lvl)
            = none := by
          apply lookupL_eq_none
          intro e he
          obtain ⟨j2, r2, hj2, hk2⟩ := keysF rest p (i + 1) lvl e he
          rw [hk2]
          intro hcontra
          rw [← List.append_cons p i r] at hcontra
          have := List.append_cancel_left hcontra
          simp at this
          omega
        rw [this]
        simp [childAt, hck]
    | succ j2 =>
      have hleft : lookupL (p ++ ((i + (j2 + 1)) :: r))
          (bqEntriesN c (p ++ [i]) lvl) = none := by
        apply lookupL_eq_none
        intro e he
        obtain ⟨q, hq⟩ := keysN c (p ++ [i]) lvl e he
        rw [hq]
        intro hcontra
        rw [← List.append_cons p i q] at hcontra
        have := List.append_cancel_left hcontra
        simp at this
      rw [hleft]
      have harith : i + (j2 + 1) = (i + 1) + j2 := by omega
      rw [harith]
      rw [lookupF rest p (i + 1) j2 lvl r]
      simp [childAt]
end

/-- Unfolding of `nodeAtN` on a nonempty path, match-free. -/
theorem nodeAtN_cons (n : GNode) (j : Nat) (r : List Nat) :
    nodeAtN n (j :: r) =
      (childAt n.children j).elim none (fun c => nodeAtN c r) := by
  rw [nodeAtN]
  cases childAt n.children j <;> rfl

/-- Case split on an optional child, for the count lemmas. -/
theorem elim_count_aux (x : Option GNode) (r : List Nat) :
    (x.elim 0 fun c => if kindAt c r = some Kind.blockquote then (1 : Nat) else 0) =
      if Option.map GNode.kind (x.elim none fun c => nodeAtN c r) =
        some Kind.blockquote then 1 else 0 := by
  cases x <;> simp [kindAt]

mutual
/-- Number of entries carrying a given key below a node: one for a
blockquote position, zero otherwise. -/
theorem countN (n : GNode) (p : List Nat) (lvl : Int) (q : List Nat) :
    List.countP (fun e => decide (e.1 = p ++ q)) (bqEntriesN n p lvl) =
      if kindAt n q = some Kind.blockquote then 1 else 0 := by
  cases n with
  | mk k t lns a cs =>
    by_cases hk : k = Kind.blockquote
    · subst hk
      cases q with
      | nil =>
        rw [bqEntriesN, if_pos rfl]
        rw [List.countP_cons]
        have hzero : List.countP (fun e => decide (e.1 = p ++ []))
            (bqEntriesF cs p 0 (lvl + 1)) = 0 := by
          rw [List.countP_eq_zero]
          intro e he
          obtain ⟨j2, r2, _, hkey⟩ := keysF cs p 0 (lvl + 1) e he
          simp [hkey]
        rw [hzero]
        simp [kindAt, nodeAtN, GNode.kind]
      | cons j r =>
        rw [bqEntriesN, if_pos rfl]
        have hadd : List.countP (fun e => decide (e.1 = p ++ (j :: r)))
            ((p, lvl) :: bqEntriesF cs p 0 (lvl + 1)) =
            List.countP (fun e => decide (e.1 = p ++ (j :: r)))
              (bqEntriesF cs p 0 (lvl + 1)) := by
          rw [List.countP_cons]; simp
        rw [hadd]
        have hF := countF cs p 0 j (lvl + 1) r
        simp only [Nat.zero_add] at hF
        rw [hF]
        rw [kindAt, nodeAtN_cons]
        simp only [GNode.children]
        rw [elim_count_aux (childAt cs j) r]
    · cases q with
      | nil =>
        rw [bqEntriesN, if_neg hk]
        have hzero : List.countP (fun e => decide (e.1 = p ++ []))
            (bqEntriesF cs p 0 lvl) = 0 := by
          rw [List.countP_eq_zero]
          intro e he
          obtain ⟨j2, r2, _, hkey⟩ := keysF cs p 0 lvl e he
          simp [hkey]
        rw [hzero]
        simp [kindAt, nodeAtN, GNode.kind, hk]
      | cons j r =>
        rw [bqEntriesN, if_neg hk]
        have hF := countF cs p 0 j lvl r
        simp only [Nat.zero_add] at hF
        rw [hF]
        rw [kindAt, nodeAtN_cons]
        simp only [GNode.children]
        rw [elim_count_aux (childAt cs j) r]

/-- Number of entries carrying a given key below a forest starting at
child index `i`, for the key whose first index is `i + j`. -/
theorem countF (cs : GForest) (p : List Nat) (i j : Nat) (lvl : Int)
    (r : List Nat) :
    List.countP (fun e => decide (e.1 = p ++ ((i + j) :: r)))
        (bqEntriesF cs p i lvl) =
      (childAt cs j).elim 0
        (fun c => if kindAt c r = some Kind.blockquote then 1 else 0) := by
  cases cs with
  | nil => simp [bqEntriesF, childAt]
  | cons c rest =>
    rw [bqEntriesF, List.countP_append]
    cases j with
    | zero =>
      have hkey : p ++ ((i + 0) :: r) = (p ++ [i]) ++ r := by simp
      rw [hkey]
      rw [countN c (p ++ [i]) lvl r]
      have hrest : List.countP (fun e => decide (e.1 = (p ++ [i]) ++ r))
          (bqEntriesF rest p (i + 1) lvl) = 0 := by
        rw [List.countP_eq_zero]
        intro e he
        obtain ⟨j2, r2, hj2, hk2⟩ := keysF rest p (i + 1) lvl e he
        rw [hk2]
        simp only [decide_eq_true_eq]
        intro hcontra
        rw [← List.append_cons p i r] at hcontra
        have := List.append_cancel_left hcontra
        simp at this
        omega
      rw [hrest]
      simp [childAt]
    | succ j2 =>
      have hleft : List.countP (fun e => decide (e.1 = p ++ ((i + (j2 + 1)) :: r)))
          (bqEntriesN c (p ++ [i]) lvl) = 0 := by
        rw [List.countP_eq_zero]
        intro e he
        obtain ⟨q, hq⟩ := keysN c (p ++ [i]) lvl e he
        rw [hq]
        simp only [decide_eq_true_eq]
        intro hcontra
        rw [← List.append_cons p i q] at hcontra
        have := List.append_cancel_left hcontra
        simp at this
      rw [hleft]
      have harith : i + (j2 + 1) = (i + 1) + j2 := by omega
      rw [harith]
      rw [countF rest p (i + 1) j2 lvl r]
      simp [childAt]
end

/-- Unfolding of `bqAncCount` on a nonempty path, match-free. -/
theorem bqAncCount_cons (n : GNode) (j : Nat) (r : List Nat) :
    bqAncCount n (j :: r) =
      (childAt n.children j).elim 0
        (fun c => (if n.kind = Kind.blockquote then 1 else 0) + bqAncCount c r) := by
  rw [bqAncCount]
  cases childAt n.children j <;> rfl

/-- Navigating an appended path goes through the intermediate node. -/
theorem nodeAtN_append (q : List Nat) : ∀ (root nq : GNode) (s : List Nat),
    nodeAtN root q = some nq → nodeAtN root (q ++ s) = nodeAtN nq s := by
  induction q with
  | nil =>
    intro root nq s h
    rw [nodeAtN] at h
    cases h
    simp
  | cons j q2 ih =>
    intro root nq s h
    rw [nodeAtN_cons] at h
    rw [List.cons_append, nodeAtN_cons]
    cases hc : childAt root.children j with
    | none => rw [hc] at h; simp at h
    | some c =>
      rw [hc] at h
      simp only [Option.elim] at h ⊢
      exact ih c nq s h

/-- Blockquote-ancestor count along an appended path splits at the
intermediate node. -/
theorem bqAnc_append (q : List Nat) : ∀ (root nq : GNode) (s : List Nat),
    nodeAtN root q = some nq →
    bqAncCount root (q ++ s) = bqAncCount root q + bqAncCount nq s := by
  induction q with
  | nil =>
    intro root nq s h
    rw [nodeAtN] at h
    cases h
    simp [bqAncCount]
  | cons j q2 ih =>
    intro root nq s h
    rw [nodeAtN_cons] at h
    rw [List.cons_append, bqAncCount_cons, bqAncCount_cons]
    cases hc : childAt root.children j with
    | none => rw [hc] at h; simp at h
    | some c =>
      rw [hc] at h
      simp only [Option.elim] at h ⊢
      rw [ih c nq s h]
      ring

/-- A position with no blockquote proper ancestor (the subtree root
included) has ancestor count zero. -/
theorem bqAnc_zero (s : List Nat) : ∀ (n : GNode),
    (∀ r, r <+: s → r ≠ s → kindAt n r ≠ some Kind.blockquote) →
    bqAncCount n s = 0 := by
  induction s with
  | nil => intro n _; rw [bqAncCount]
  | cons j s2 ih =>
    intro n h
    rw [bqAncCount_cons]
    cases hc : childAt n.children j with
    | none => simp
    | some c =>
      simp only [Option.elim]
      have hn : n.kind ≠ Kind.blockquote := by
        have h0 := h [] List.nil_prefix (by simp)
        simp [kindAt, nodeAtN] at h0
        exact h0
      rw [if_neg hn]
      have hc2 : bqAncCount c s2 = 0 := by
        apply ih
        intro r hr hrne
        have h1 := h (j :: r) (List.cons_prefix_cons.mpr ⟨rfl, hr⟩)
          (by simp [hrne])
        rw [kindAt, nodeAtN_cons, hc] at h1
        simpa [kindAt] using h1
      omega

/-- Inside a blockquote node, a valid nonempty path with no strictly
intermediate blockquote position has ancestor count one (the subtree
root itself). -/
theorem bqAnc_one (nq : GNode) (s : List Nat)
    (hbq : nq.kind = Kind.blockquote) (hs : s ≠ [])
    (hv : (nodeAtN nq s).isSome = true)
    (h : ∀ r, r <+: s → r ≠ [] → r ≠ s → kindAt nq r ≠ some Kind.blockquote) :
    bqAncCount nq s = 1 := by
  cases s with
  | nil => exact absurd rfl hs
  | cons j s2 =>
    rw [bqAncCount_cons]
    cases hc : childAt nq.children j with
    | none =>
      rw [nodeAtN_cons, hc] at hv
      simp at hv
    | some c =>
      simp only [Option.elim]
      rw [if_pos hbq]
      have hc2 : bqAncCount c s2 = 0 := by
        apply bqAnc_zero
        intro r hr hrne
        have h1 := h (j :: r) (List.cons_prefix_cons.mpr ⟨rfl, hr⟩)
          (by simp) (by simp [hrne])
        rw [kindAt, nodeAtN_cons, hc] at h1
        simpa [kindAt] using h1
      omega

/-- `isPrefixL` decides the prefix relation. -/
theorem isPrefixL_iff (p : List Char) : ∀ l, isPrefixL p l = true ↔ p <+: l := by
  induction p with
  | nil => intro l; simp [isPrefixL]
  | cons a as ih =>
    intro l
    cases l with
    | nil => simp [isPrefixL]
    | cons b bs =>
      rw [isPrefixL]
      simp [List.cons_prefix_cons, ih bs, Bool.and_eq_true, And.comm]

/-- `containsL` decides the infix (substring) relation. -/
theorem containsL_iff (p : List Char) : ∀ l, containsL p l = true ↔ p <:+: l := by
  intro l
  induction l with
  | nil =>
    rw [containsL]
    simp [isPrefixL_iff]
  | cons b bs ih =>
    rw [containsL]
    simp [isPrefixL_iff, ih, List.infix_cons_iff, Bool.or_eq_true]

/-- Two prefixes of the same list agree at their second character. -/
theorem isPrefixL_second_eq (c1 c2 c3 : Char) (p1 p2 l : List Char)
    (h1 : isPrefixL (c1 :: c2 :: p1) l = true)
    (h2 : isPrefixL (c1 :: c3 :: p2) l = true) : c2 = c3 := by
  cases l with
  | nil => simp [isPrefixL] at h1
  | cons x xs =>
    cases xs with
    | nil => simp [isPrefixL] at h1
    | cons y ys =>
      simp only [isPrefixL, Bool.and_eq_true, beq_iff_eq] at h1 h2
      rw [h1.2.1, h2.2.1]

/-- A prefix with a distinct second character cannot match. -/
theorem atStart_second_ne (a b c : Char) (p1 p2 l : List Char)
    (hne : b ≠ c) (h1 : isPrefixL (a :: b :: p1) l = true) :
    isPrefixL (a :: c :: p2) l = false := by
  cases hh : isPrefixL (a :: c :: p2) l
  · rfl
  · exact absurd (isPrefixL_second_eq a b c p1 p2 l h1 hh) hne

/-- A boolean that is not true is false. -/
theorem boolFalse (b : Bool) (h : ¬b = true) : b = false := by
  cases b
  · rfl
  · exact absurd rfl h

/-- Spec-side reading of the Alert patterns: the line begins,
case-insensitively, with the given marker. -/
def beginsWithCI (pat s : String) : Prop := lowerStr pat <+: lowerStr s

/-- Spec-side reading of the Legacy classifier: test the fragment for
the literal words info, note, warn, tip — case-insensitively, anywhere
in the fragment — in that priority order, first match wins, `None`
when no word occurs. -/
def legacySpecClassify (s : String) : BlockQuoteType :=
  if "info".data <:+: lowerStr s then .Info
  else if "note".data <:+: lowerStr s then .Note
  else if "warn".data <:+: lowerStr s then .Warn
  else if "tip".data <:+: lowerStr s then .Tip
  else .None

/-- Once the paragraph counter has exceeded 1, the very next entering
event returns `WalkStop` and leaves the classification unchanged. -/
theorem pbqtStep_stop (t : BlockQuoteType) (cp : Nat) (n : GNode)
    (p : List Nat) (sibs : GForest) (h : 2 ≤ cp) :
    pbqtStep (t, cp) n p sibs true =
      ((t, if n.kind = Kind.paragraph then cp + 1 else cp),
        WalkStatus.walkStop) := by
  by_cases hk : n.kind = Kind.paragraph
  · simp [pbqtStep, hk, show ¬(cp + 1 < 2) from by omega,
      show 1 < cp + 1 from by omega]
  · simp [pbqtStep, hk, show ¬(cp < 2) from by omega,
      show 1 < cp from by omega]

/-- A `ParseBlockQuoteType` walk started with paragraph counter at
least 2 stops immediately, leaving the classification unchanged. -/
theorem walkN_pbqt_stop (t : BlockQuoteType) (cp : Nat) (n : GNode)
    (p : List Nat) (sibs : GForest) (h : 2 ≤ cp) :
    walkN pbqtStep (t, cp) n p sibs =
      ((t, if n.kind = Kind.paragraph then cp + 1 else cp), true) := by
  cases n with
  | mk k tx lns a cs =>
    rw [walkN]
    rw [pbqtStep_stop t cp (GNode.mk k tx lns a cs) p sibs h]

instance (p s : String) : Decidable (beginsWithCI p s) :=
  inferInstanceAs (Decidable (lowerStr p <+: lowerStr s))

/-- C5: the Alert classifier maps a string beginning case-insensitively
with `!note` or `!important` to Info, with `!warning` to Note, with
`!caution` to Warn, with `!tip` to Tip, and every other string to
None. -/
theorem C5_alert_classifier (s : String) :
    ((beginsWithCI "!note" s ∨ beginsWithCI "!important" s) →
      ClassifyingBlockQuote GHAlertsBlockQuoteClassifier s = BlockQuoteType.Info) ∧
    (beginsWithCI "!warning" s →
      ClassifyingBlockQuote GHAlertsBlockQuoteClassifier s = BlockQuoteType.Note) ∧
    (beginsWithCI "!caution" s →
      ClassifyingBlockQuote GHAlertsBlockQuoteClassifier s = BlockQuoteType.Warn) ∧
    (beginsWithCI "!tip" s →
      ClassifyingBlockQuote GHAlertsBlockQuoteClassifier s = BlockQuoteType.Tip) ∧
    (¬(beginsWithCI "!note" s ∨ beginsWithCI "!important" s ∨
        beginsWithCI "!warning" s ∨ beginsWithCI "!caution" s ∨
        beginsWithCI "!tip" s) →
      ClassifyingBlockQuote GHAlertsBlockQuoteClassifier s = BlockQuoteType.None) := by
  have hb : ∀ pat : String, lowerStr pat = pat.data →
      (beginsWithCI pat s ↔ matchAtStartCI pat s = true) := by
    intro pat hp
    rw [beginsWithCI, matchAtStartCI, hp]
    exact (isPrefixL_iff pat.data (lowerStr s)).symm
  have hn := hb "!note" (by decide)
  have hi := hb "!important" (by decide)
  have hw := hb "!warning" (by decide)
  have hc := hb "!caution" (by decide)
  have ht := hb "!tip" (by decide)
  have dn : "!note".data = '!' :: 'n' :: "ote".data := by decide
  have di : "!important".data = '!' :: 'i' :: "mportant".data := by decide
  have dw : "!warning".data = '!' :: 'w' :: "arning".data := by decide
  have dc : "!caution".data = '!' :: 'c' :: "aution".data := by decide
  have dt : "!tip".data = '!' :: 't' :: "ip".data := by decide
  refine ⟨?_, ?_, ?_, ?_, ?_⟩
  · intro h
    have h2 : matchAtStartCI "!note" s = true ∨
        matchAtStartCI "!important" s = true := by
      rcases h with h | h
      · exact Or.inl (hn.mp h)
      · exact Or.inr (hi.mp h)
    rcases h2 with h2 | h2 <;>
      simp [ClassifyingBlockQuote, GHAlertsBlockQuoteClassifier, h2]
  · intro h
    have hmain : matchAtStartCI "!warning" s = true := hw.mp h
    have hw3 : isPrefixL ('!' :: 'w' :: "arning".data) (lowerStr s) = true := by
      rw [← dw]; exact hw.mp h
    have en : matchAtStartCI "!note" s = false := by
      rw [matchAtStartCI, dn]
      exact atStart_second_ne '!' 'w' 'n' _ _ _ (by decide) hw3
    have ei : matchAtStartCI "!important" s = false := by
      rw [matchAtStartCI, di]
      exact atStart_second_ne '!' 'w' 'i' _ _ _ (by decide) hw3
    simp [ClassifyingBlockQuote, GHAlertsBlockQuoteClassifier, en, ei, hmain]
  · intro h
    have hmain : matchAtStartCI "!caution" s = true := hc.mp h
    have hc3 : isPrefixL ('!' :: 'c' :: "aution".data) (lowerStr s) = true := by
      rw [← dc]; exact hc.mp h
    have en : matchAtStartCI "!note" s = false := by
      rw [matchAtStartCI, dn]
      exact atStart_second_ne '!' 'c' 'n' _ _ _ (by decide) hc3
    have ei : matchAtStartCI "!important" s = false := by
      rw [matchAtStartCI, di]
      exact atStart_second_ne '!' 'c' 'i' _ _ _ (by decide) hc3
    have ew : matchAtStartCI "!warning" s = false := by
      rw [matchAtStartCI, dw]
      exact atStart_second_ne '!' 'c' 'w' _ _ _ (by decide) hc3
    simp [ClassifyingBlockQuote, GHAlertsBlockQuoteClassifier, en, ei, ew, hmain]
  · intro h
    have hmain : matchAtStartCI "!tip" s = true := ht.mp h
    have ht3 : isPrefixL ('!' :: 't' :: "ip".data) (lowerStr s) = true := by
      rw [← dt]; exact ht.mp h
    have en : matchAtStartCI "!note" s = false := by
      rw [matchAtStartCI, dn]
      exact atStart_second_ne '!' 't' 'n' _ _ _ (by decide) ht3
    have ei : matchAtStartCI "!important" s = false := by
      rw [matchAtStartCI, di]
      exact atStart_second_ne '!' 't' 'i' _ _ _ (by decide) ht3
    have ew : matchAtStartCI "!warning" s = false := by
      rw [matchAtStartCI, dw]
      exact atStart_second_ne '!' 't' 'w' _ _ _ (by decide) ht3
    have ec : matchAtStartCI "!caution" s = false := by
      rw [matchAtStartCI, dc]
      exact atStart_second_ne '!' 't' 'c' _ _ _ (by decide) ht3
    simp [ClassifyingBlockQuote, GHAlertsBlockQuoteClassifier, en, ei, ew, ec, hmain]
  · intro h
    push_neg at h
    obtain ⟨n1, n2, n3, n4, n5⟩ := h
    have e1 : matchAtStartCI "!note" s = false :=
      boolFalse _ (fun hx => n1 (hn.mpr hx))
    have e2 : matchAtStartCI "!important" s = false :=
      boolFalse _ (fun hx => n2 (hi.mpr hx))
    have e3 : matchAtStartCI "!warning" s = false :=
      boolFalse _ (fun hx => n3 (hw.mpr hx))
    have e4 : matchAtStartCI "!caution" s = false :=
      boolFalse _ (fun hx => n4 (hc.mpr hx))
    have e5 : matchAtStartCI "!tip" s = false :=
      boolFalse _ (fun hx => n5 (ht.mpr hx))
    simp [ClassifyingBlockQuote, GHAlertsBlockQuoteClassifier, e1, e2, e3, e4, e5]

/-- Witness for C5 on concrete inputs, one per branch. -/
theorem C5_alert_classifier_witness :
    ClassifyingBlockQuote GHAlertsBlockQuoteClassifier "!note" = BlockQuoteType.Info ∧
    ClassifyingBlockQuote GHAlertsBlockQuoteClassifier "!important" = BlockQuoteType.Info ∧
    ClassifyingBlockQuote GHAlertsBlockQuoteClassifier "!WARNING" = BlockQuoteType.Note ∧
    ClassifyingBlockQuote GHAlertsBlockQuoteClassifier "!caution details" = BlockQuoteType.Warn ∧
    ClassifyingBlockQuote GHAlertsBlockQuoteClassifier "!tip" = BlockQuoteType.Tip ∧
    ClassifyingBlockQuote GHAlertsBlockQuoteClassifier "nothing special" = BlockQuoteType.None :=
  ⟨(C5_alert_classifier "!note").1 (Or.inl (by decide)),
   (C5_alert_classifier "!important").1 (Or.inr (by decide)),
   (C5_alert_classifier "!WARNING").2.1 (by decide),
   (C5_alert_classifier "!caution details").2.2.1 (by decide),
   (C5_alert_classifier "!tip").2.2.2.1 (by decide),
   (C5_alert_classifier "nothing special").2.2.2.2 (by decide)⟩

/-- C6: `ClassifyingBlockQuote` tests the configured patterns in the
fixed order info, note, warn, tip and returns the first match (`None`
when nothing matches); with the Legacy configuration a pattern matches
exactly when the word occurs case-insensitively anywhere in the
fragment. -/
theorem C6_legacy_priority_contains (s : String) :
    ClassifyingBlockQuote LegacyBlockQuoteClassifier s = legacySpecClassify s := by
  have b : ∀ pat : String, matchAnywhereCI pat s = true ↔ pat.data <:+: lowerStr s :=
    fun pat => containsL_iff pat.data (lowerStr s)
  by_cases h1 : "info".data <:+: lowerStr s
  · simp [ClassifyingBlockQuote, legacySpecClassify, LegacyBlockQuoteClassifier,
      (b "info").mpr h1, h1]
  · have h1b := boolFalse _ (fun hx => h1 ((b "info").mp hx))
    by_cases h2 : "note".data <:+: lowerStr s
    · simp [ClassifyingBlockQuote, legacySpecClassify, LegacyBlockQuoteClassifier,
        h1b, (b "note").mpr h2, h1, h2]
    · have h2b := boolFalse _ (fun hx => h2 ((b "note").mp hx))
      by_cases h3 : "warn".data <:+: lowerStr s
      · simp [ClassifyingBlockQuote, legacySpecClassify, LegacyBlockQuoteClassifier,
          h1b, h2b, (b "warn").mpr h3, h1, h2, h3]
      · have h3b := boolFalse _ (fun hx => h3 ((b "warn").mp hx))
        by_cases h4 : "tip".data <:+: lowerStr s
        · simp [ClassifyingBlockQuote, legacySpecClassify, LegacyBlockQuoteClassifier,
            h1b, h2b, h3b, (b "tip").mpr h4, h1, h2, h3, h4]
        · have h4b := boolFalse _ (fun hx => h4 ((b "tip").mp hx))
          simp [ClassifyingBlockQuote, legacySpecClassify, LegacyBlockQuoteClassifier,
            h1b, h2b, h3b, h4b, h1, h2, h3, h4]

/-- C2: after resolving the true root, `GenerateBlockQuoteLevel`
assigns exactly one entry to every blockquote node reachable from the
root; a top-level blockquote (no blockquote proper ancestor) gets depth
0, a nested blockquote gets the nearest enclosing blockquote's depth
plus 1, every non-blockquote node gets no entry, and the `Level` lookup
returns 0 for any key without an entry. -/
theorem C2_level_map_invariant (root : GNode) (p : List Nat) (n : GNode)
    (hp : nodeAtN root p = some n) :
    ((n.kind = Kind.blockquote →
        List.countP (fun e => decide (e.1 = p)) (GenerateBlockQuoteLevel root) = 1 ∧
        lookupL p (GenerateBlockQuoteLevel root) = some (bqAncCount root p) ∧
        ((∀ q, q <+: p → q ≠ p → kindAt root q ≠ some Kind.blockquote) →
          Level (GenerateBlockQuoteLevel root) p = 0) ∧
        (∀ q s, p = q ++ s → s ≠ [] → kindAt root q = some Kind.blockquote →
          (∀ r, r <+: s → r ≠ [] → r ≠ s →
            kindAt root (q ++ r) ≠ some Kind.blockquote) →
          Level (GenerateBlockQuoteLevel root) p =
            Level (GenerateBlockQuoteLevel root) q + 1)) ∧
      (n.kind ≠ Kind.blockquote →
        List.countP (fun e => decide (e.1 = p)) (GenerateBlockQuoteLevel root) = 0)) ∧
    (∀ (m : BlockQuoteLevelMap) (q : List Nat), lookupL q m = none → Level m q = 0) := by
  have hgen := gen_eq_bqEntries root
  have hkAt : kindAt root p = some n.kind := by simp [kindAt, hp]
  have hcount := countN root [] 0 p
  simp only [List.nil_append] at hcount
  have hlook := lookupN root [] 0 p
  simp only [List.nil_append, zero_add] at hlook
  refine ⟨⟨?_, ?_⟩, ?_⟩
  · intro hbq
    have hkb : kindAt root p = some Kind.blockquote := by rw [hkAt, hbq]
    refine ⟨?_, ?_, ?_, ?_⟩
    · rw [hgen, hcount, if_pos hkb]
    · rw [hgen, hlook, if_pos hkb]
    · intro hnone
      have hz : bqAncCount root p = 0 := bqAnc_zero p root hnone
      rw [Level, hgen, hlook, if_pos hkb, hz]
      rfl
    · intro q s hps hsne hkq hbetween
      have hnq : ∃ nq, nodeAtN root q = some nq ∧ nq.kind = Kind.blockquote := by
        rw [kindAt] at hkq
        cases hno : nodeAtN root q with
        | none => rw [hno] at hkq; simp at hkq
        | some nq =>
          rw [hno] at hkq
          simp at hkq
          exact ⟨nq, rfl, hkq⟩
      obtain ⟨nq, hnq1, hnq2⟩ := hnq
      have hval : nodeAtN root (q ++ s) = some n := by rw [← hps]; exact hp
      have hvs : nodeAtN nq s = some n := by
        rw [← nodeAtN_append q root nq s hnq1]
        exact hval
      have h1 : bqAncCount root p = bqAncCount root q + 1 := by
        rw [hps, bqAnc_append q root nq s hnq1]
        congr 1
        apply bqAnc_one nq s hnq2 hsne (by rw [hvs]; rfl)
        intro r hr hrne hrns
        have hbet := hbetween r hr hrne hrns
        rw [kindAt, nodeAtN_append q root nq r hnq1] at hbet
        rw [kindAt]
        exact hbet
      have hlookq := lookupN root [] 0 q
      simp only [List.nil_append, zero_add] at hlookq
      rw [Level, Level, hgen, hlook, hlookq, if_pos hkb, if_pos hkq]
      simp [h1]
  · intro hnbq
    have hkb : kindAt root p ≠ some Kind.blockquote := by
      rw [hkAt]
      simp
      exact hnbq
    rw [hgen, hcount, if_neg hkb]
  · intro m q hq
    rw [Level, hq]
    rfl

/-- Witness for C2 on a concrete tree: document containing a top-level
blockquote whose paragraph contains a nested blockquote. -/
theorem C2_level_map_invariant_witness :
    List.countP (fun e => decide (e.1 = [0, 0, 0]))
      (GenerateBlockQuoteLevel
        (.mk .document "" [] none
          (.cons (.mk .blockquote "" [] none
            (.cons (.mk .paragraph "" [] none
              (.cons (.mk .blockquote "" [] none .nil) .nil)) .nil)) .nil))) = 1 ∧
    lookupL [0, 0, 0]
      (GenerateBlockQuoteLevel
        (.mk .document "" [] none
          (.cons (.mk .blockquote "" [] none
            (.cons (.mk .paragraph "" [] none
              (.cons (.mk .blockquote "" [] none .nil) .nil)) .nil)) .nil))) =
      some 1 := by
  have h := (C2_level_map_invariant
    (.mk .document "" [] none
      (.cons (.mk .blockquote "" [] none
        (.cons (.mk .paragraph "" [] none
          (.cons (.mk .blockquote "" [] none .nil) .nil)) .nil)) .nil))
    [0, 0, 0] (.mk .blockquote "" [] none .nil) rfl).1.1 rfl
  refine ⟨h.1, ?_⟩
  rw [h.2.1]
  rfl

/-- C10: `GenerateBlockQuoteLevel` assigns entries only to
blockquote-kind nodes; a node of any other kind — in particular an
admonition-kind node, the kind `renderAdmon` is registered for — gets
no entry, so `Level` reports 0 and `renderAdmon` takes its depth-0
branch for it. -/
theorem C10_only_blockquote_entries (root : GNode) (p : List Nat) (n : GNode)
    (hp : nodeAtN root p = some n) (hk : n.kind ≠ Kind.blockquote) :
    lookupL p (GenerateBlockQuoteLevel root) = none ∧
    Level (GenerateBlockQuoteLevel root) p = 0 ∧
    (∀ w : Sink, w.plan = [] → ParseBlockQuoteType n ≠ BlockQuoteType.None →
      renderAdmon none root p n true w =
        (some (GenerateBlockQuoteLevel root),
         some (⟨[], w.out ++
           ["<ac:structured-macro ac:name=\"" ++
             BlockQuoteType.str (ParseBlockQuoteType n) ++
             "\"><ac:parameter ac:name=\"icon\">true</ac:parameter><ac:rich-text-body>\n"]⟩,
           WalkStatus.walkContinue, false))) := by
  have hgen := gen_eq_bqEntries root
  have hlook := lookupN root [] 0 p
  simp only [List.nil_append, zero_add] at hlook
  have hkb : kindAt root p ≠ some Kind.blockquote := by
    simp [kindAt, hp]
    exact hk
  have hnone : lookupL p (GenerateBlockQuoteLevel root) = none := by
    rw [hgen, hlook, if_neg hkb]
  have hlvl : Level (GenerateBlockQuoteLevel root) p = 0 := by
    rw [Level, hnone]
    rfl
  refine ⟨hnone, hlvl, ?_⟩
  intro w hw htype
  cases w with
  | mk plan out =>
    simp at hw
    subst hw
    simp [renderAdmon, hlvl, htype, writeS]

/-- Sample node: a top-level admonition whose paragraph reads
"Note: hi" (resolves to `Note`). -/
def sampleAdmon : GNode :=
  .mk .admonition "" [] none
    (.cons (.mk .paragraph "" [] none
      (.cons (.mk .text "Note: hi" [] none .nil) .nil)) .nil)

/-- Sample document containing `sampleAdmon` as its only child. -/
def sampleRoot : GNode :=
  .mk .document "" [] none (.cons sampleAdmon .nil)

/-- Witness for C10: the admonition node of `sampleRoot` has no level
entry, reports depth 0, and gets the structured-macro open tag. -/
theorem C10_only_blockquote_entries_witness :
    lookupL [0] (GenerateBlockQuoteLevel sampleRoot) = none ∧
    Level (GenerateBlockQuoteLevel sampleRoot) [0] = 0 := by
  have h := C10_only_blockquote_entries sampleRoot [0] sampleAdmon rfl (by decide)
  exact ⟨h.1, h.2.1⟩

/-- C1: with the level map computed from the tree root, a node of
computed depth 0 whose resolved type is not `None` gets exactly the
structured-macro open tag (with the type's label and a trailing
newline) written on the entering visit and exactly the close tag on the
exiting visit; a node of positive depth or of type `None` falls through
to the plain blockquote renderer on both visits. -/
theorem C1_renderAdmon_branches (root : GNode) (p : List Nat) (node : GNode)
    (w : Sink) (_hpn : nodeAtN root p = some node) (hw : w.plan = []) :
    ((Level (GenerateBlockQuoteLevel root) p = 0 ∧
      ParseBlockQuoteType node ≠ BlockQuoteType.None) →
      renderAdmon none root p node true w =
        (some (GenerateBlockQuoteLevel root),
         some (⟨[], w.out ++
           ["<ac:structured-macro ac:name=\"" ++
             BlockQuoteType.str (ParseBlockQuoteType node) ++
             "\"><ac:parameter ac:name=\"icon\">true</ac:parameter><ac:rich-text-body>\n"]⟩,
           WalkStatus.walkContinue, false)) ∧
      renderAdmon none root p node false w =
        (some (GenerateBlockQuoteLevel root),
         some (⟨[], w.out ++ ["</ac:rich-text-body></ac:structured-macro>\n"]⟩,
           WalkStatus.walkContinue, false))) ∧
    ((0 < Level (GenerateBlockQuoteLevel root) p ∨
      ParseBlockQuoteType node = BlockQuoteType.None) →
      ∀ entering, renderAdmon none root p node entering w =
        (some (GenerateBlockQuoteLevel root),
         renderAdmonition node entering w)) := by
  cases w with
  | mk plan out =>
    simp only [Sink.plan] at hw
    subst hw
    constructor
    · rintro ⟨h0, hne⟩
      constructor
      · simp [renderAdmon, h0, hne, writeS]
      · simp [renderAdmon, h0, hne, writeS]
    · intro hfall entering
      rcases hfall with hpos | hnone
      · have hne0 : ¬Level (GenerateBlockQuoteLevel root) p = 0 := by omega
        simp [renderAdmon, hne0]
      · simp [renderAdmon, hnone]

/-- Witness for C1: both branches exercised on `sampleRoot` (macro
branch) and on a type-`None` admonition (fall-through branch). -/
theorem C1_renderAdmon_branches_witness :
    renderAdmon none sampleRoot [0] sampleAdmon true ⟨[], []⟩ =
      (some (GenerateBlockQuoteLevel sampleRoot),
       some (⟨[], ["<ac:structured-macro ac:name=\"note\"><ac:parameter ac:name=\"icon\">true</ac:parameter><ac:rich-text-body>\n"]⟩,
         WalkStatus.walkContinue, false)) ∧
    renderAdmon none sampleRoot [0] sampleAdmon false ⟨[], []⟩ =
      (some (GenerateBlockQuoteLevel sampleRoot),
       some (⟨[], ["</ac:rich-text-body></ac:structured-macro>\n"]⟩,
         WalkStatus.walkContinue, false)) ∧
    renderAdmon none
      (.mk .document "" [] none
        (.cons (.mk .admonition "" [] none .nil) .nil))
      [0] (.mk .admonition "" [] none .nil) true ⟨[], []⟩ =
      (some (GenerateBlockQuoteLevel
        (.mk .document "" [] none
          (.cons (.mk .admonition "" [] none .nil) .nil))),
       renderAdmonition (.mk .admonition "" [] none .nil) true ⟨[], []⟩) := by
  have h1 := (C1_renderAdmon_branches sampleRoot [0] sampleAdmon ⟨[], []⟩ rfl rfl).1
    ⟨by rfl, by decide⟩
  have h2 := (C1_renderAdmon_branches
    (.mk .document "" [] none (.cons (.mk .admonition "" [] none .nil) .nil))
    [0] (.mk .admonition "" [] none .nil) ⟨[], []⟩ rfl rfl).2
    (Or.inr (by rfl)) true
  refine ⟨?_, ?_, h2⟩
  · rw [h1.1]
    rfl
  · rw [h1.2]
    rfl

/-- C8 counterexample: a failed write in the plain blockquote renderer
is discarded — the sink's one-write plan fails, nothing is written, and
the function still returns `(WalkContinue, nil)`, so the walk continues
after the failed write, contrary to the claim that all writes alike
abort with a hard stop. -/
theorem C8_plain_write_failure_ignored_cex :
    renderAdmonition (.mk .admonition "" [] none .nil) true ⟨[false], []⟩ =
      some (⟨[], []⟩, WalkStatus.walkContinue, false) := by rfl

/-- C8 (amended): a write failure in the structured-macro writes aborts
the node's emission with `(WalkStop, err)`; the plain blockquote writes
discard write errors and always return `(WalkContinue, nil)`. -/
theorem C8_write_failure_propagation (root : GNode) (p : List Nat)
    (node : GNode) (w : Sink) (rest : List Bool)
    (hw : w.plan = false :: rest)
    (h0 : Level (GenerateBlockQuoteLevel root) p = 0)
    (hne : ParseBlockQuoteType node ≠ BlockQuoteType.None) :
    (∀ entering, renderAdmon none root p node entering w =
      (some (GenerateBlockQuoteLevel root),
       some (⟨rest, w.out⟩, WalkStatus.walkStop, true))) ∧
    (∀ (n2 : GNode) (entering : Bool) (w2 : Sink),
      n2.kind = Kind.admonition →
      ∃ w3, renderAdmonition n2 entering w2 =
        some (w3, WalkStatus.walkContinue, false)) := by
  constructor
  · intro entering
    cases w with
    | mk plan out =>
      simp only [Sink.plan] at hw
      subst hw
      cases entering
      · simp [renderAdmon, h0, hne, writeS]
      · simp [renderAdmon, h0, hne, writeS]
  · intro n2 entering w2 hk2
    cases n2 with
    | mk k tx lns a cs =>
      simp only [GNode.kind] at hk2
      subst hk2
      cases entering with
      | false =>
        exact ⟨(writeS "</blockquote>\n" w2).1,
          by simp [renderAdmonition, GNode.kind]⟩
      | true =>
        cases a with
        | none =>
          exact ⟨(writeS "<blockquote>\n" w2).1,
            by simp [renderAdmonition, GNode.kind, GNode.attrs]⟩
        | some aa =>
          exact ⟨(writeS ">" (writeS aa (writeS "<blockquote" w2).1).1).1,
            by simp [renderAdmonition, GNode.kind, GNode.attrs]⟩

/-- Witness for C8: the failing first write of the macro open tag stops
the walk on `sampleRoot`. -/
theorem C8_write_failure_propagation_witness :
    renderAdmon none sampleRoot [0] sampleAdmon true ⟨[false], []⟩ =
      (some (GenerateBlockQuoteLevel sampleRoot),
       some (⟨[], []⟩, WalkStatus.walkStop, true)) := by
  have h := (C8_write_failure_propagation sampleRoot [0] sampleAdmon
    ⟨[false], []⟩ [] rfl (by rfl) (by decide)).1 true
  rw [h]

/-- C9: the plain-quote renderer's leading type assertion panics
(abrupt termination, modelled as `none`) whenever the node's dynamic
type is not `*Admonition`; on an Admonition node that failure branch is
unreachable (the call returns a value). -/
theorem C9_type_assertion_panic (n : GNode) (entering : Bool) (w : Sink) :
    (n.kind ≠ Kind.admonition → renderAdmonition n entering w = none) ∧
    (n.kind = Kind.admonition →
      (renderAdmonition n entering w).isSome = true) := by
  constructor
  · intro h
    simp [renderAdmonition, h]
  · intro h
    simp [renderAdmonition, h]

/-- Witness for C9: a blockquote-kind node panics, an admonition-kind
node does not. -/
theorem C9_type_assertion_panic_witness :
    renderAdmonition (.mk .blockquote "" [] none .nil) true ⟨[], []⟩ = none ∧
    (renderAdmonition (.mk .admonition "" [] none .nil) true ⟨[], []⟩).isSome = true :=
  ⟨(C9_type_assertion_panic (.mk .blockquote "" [] none .nil) true ⟨[], []⟩).1
      (by decide),
   (C9_type_assertion_panic (.mk .admonition "" [] none .nil) true ⟨[], []⟩).2
      (by decide)⟩

/-- C3 counterexample: in a blockquote whose first two children are the
text nodes "note" and "x", the first inspected text node classifies as
`Note` (first conjunct), yet `ParseBlockQuoteType` returns `None`
(second conjunct): the non-`None` classification was not returned but
overwritten by the later inspected sibling. -/
theorem C3_overwrite_cex :
    ClassifyingBlockQuote LegacyBlockQuoteClassifier "note" = BlockQuoteType.Note ∧
    ParseBlockQuoteType
      (.mk .blockquote "" [] none
        (forest [.mk .text "note" [] none .nil,
                 .mk .text "x" [] none .nil])) =
      BlockQuoteType.None := ⟨by decide, by rfl⟩

/-- C3 (amended): `ParseBlockQuoteType` does not return as soon as a
non-`None` classification is found — a later inspected node can
overwrite the running classification, even back to `None` — but once
the paragraph counter exceeds 1 the walk halts at the next entering
event with the classification unchanged, so a classification made when
the counter reaches 2 is final. -/
theorem C3_classification_final_after_bound (t : BlockQuoteType) (cp : Nat)
    (n : GNode) (p : List Nat) (sibs : GForest) (h : 2 ≤ cp) :
    (walkN pbqtStep (t, cp) n p sibs).1.1 = t ∧
    (walkN pbqtStep (t, cp) n p sibs).2 = true := by
  rw [walkN_pbqt_stop t cp n p sibs h]
  exact ⟨rfl, rfl⟩

/-- Witness for C3 (amended) at a concrete state and node. -/
theorem C3_classification_final_after_bound_witness :
    (walkN pbqtStep (BlockQuoteType.Note, 2)
      (.mk .text "x" [] none .nil) [] .nil).1.1 = BlockQuoteType.Note ∧
    (walkN pbqtStep (BlockQuoteType.Note, 2)
      (.mk .text "x" [] none .nil) [] .nil).2 = true :=
  C3_classification_final_after_bound BlockQuoteType.Note 2
    (.mk .text "x" [] none .nil) [] .nil (by decide)

/-- C4 counterexample: the internal counter is not incremented only by
paragraph-entry events — entering a text node increments it as well. -/
theorem C4_counter_not_paragraph_only_cex :
    ¬(∀ (st : BlockQuoteType × Nat) (n : GNode) (p : List Nat)
        (sibs : GForest) (b : Bool),
        (pbqtStep st n p sibs b).1.2 ≠ st.2 → n.kind = Kind.paragraph) := by
  intro h
  have h2 := h (BlockQuoteType.None, 0) (.mk .text "" [] none .nil) [] .nil true
    (by decide)
  exact absurd h2 (by decide)

/-- C4 (amended): the counter is incremented by paragraph-entry events
and additionally by each text-node or raw-HTML-block inspection
performed while the counter is below 2; the walk step yields `WalkStop`
exactly at an entering event at which the counter (after a paragraph
increment) exceeds 1. -/
theorem C4_counter_and_halt (t : BlockQuoteType) (cp : Nat) (n : GNode)
    (p : List Nat) (sibs : GForest) (b : Bool) :
    (pbqtStep (t, cp) n p sibs b).1.2 =
      (if b = true ∧ (n.kind = Kind.paragraph ∨
          (cp < 2 ∧ (n.kind = Kind.text ∨ n.kind = Kind.htmlBlock)))
       then cp + 1 else cp) ∧
    ((pbqtStep (t, cp) n p sibs b).2 = WalkStatus.walkStop ↔
      b = true ∧ 1 < (if n.kind = Kind.paragraph then cp + 1 else cp)) := by
  cases b with
  | false => simp [pbqtStep]
  | true =>
    by_cases hk : n.kind = Kind.paragraph
    · by_cases hcp : cp + 1 < 2
      · simp [pbqtStep, hk, hcp, show ¬(1 < cp + 1) from by omega]
      · simp [pbqtStep, hk, hcp, show 1 < cp + 1 from by omega]
    · by_cases ht : n.kind = Kind.text
      · by_cases hcp : cp < 2
        · simp [pbqtStep, hk, ht, hcp, show ¬(1 < cp) from by omega]
        · simp [pbqtStep, hk, ht, hcp, show 1 < cp from by omega]
      · by_cases hh : n.kind = Kind.htmlBlock
        · by_cases hcp : cp < 2
          · simp [pbqtStep, hk, ht, hh, hcp, show ¬(1 < cp) from by omega]
          · simp [pbqtStep, hk, ht, hh, hcp, show 1 < cp from by omega]
        · by_cases hcp : cp < 2
          · simp [pbqtStep, hk, ht, hh, hcp, show ¬(1 < cp) from by omega]
          · simp [pbqtStep, hk, ht, hh, hcp, show 1 < cp from by omega]

/-- C7 counterexample: the bracket triple `[`, `!IMPORTANT`, `]` as
direct children of the blockquote (not inside a paragraph): the Alert
classifier maps the middle text to `Info` (first conjunct), yet
`ParseBlockQuoteType` returns `None` (second conjunct) because the walk
goes on and the later siblings overwrite the recovered result. -/
theorem C7_bracket_direct_children_cex :
    ClassifyingBlockQuote GHAlertsBlockQuoteClassifier "!IMPORTANT" =
      BlockQuoteType.Info ∧
    ParseBlockQuoteType
      (.mk .blockquote "" [] none
        (forest [.mk .text "[" [] none .nil,
                 .mk .text "!IMPORTANT" [] none .nil,
                 .mk .text "]" [] none .nil])) =
      BlockQuoteType.None := ⟨by decide, by rfl⟩

/-- C7 (amended): when the bracket triple `[`, mid, `]` starts the
blockquote's first paragraph, the first inspected text node is `[`
(Legacy-classified `None`), the Alert classification of the middle
sibling is adopted, the walk stops at the next entering event, and that
classification — whatever it is — is the function's result. -/
theorem C7_bracket_recovery_in_paragraph (mid : String) (r1 r2 : GForest) :
    ParseBlockQuoteType
      (.mk .blockquote "" [] none
        (.cons (.mk .paragraph "" [] none
          (.cons (.mk .text "[" [] none .nil)
            (.cons (.mk .text mid [] none .nil)
              (.cons (.mk .text "]" [] none .nil) r1)))) r2)) =
      ClassifyingBlockQuote GHAlertsBlockQuoteClassifier mid := by
  have hbr : ClassifyingBlockQuote LegacyBlockQuoteClassifier "[" =
      BlockQuoteType.None := by decide
  simp [ParseBlockQuoteType, walkN, walkF, pbqtStep, GNode.kind, GNode.text,
    GNode.children, hbr]

end Admonitions

-- Concrete evaluations of the embedding on the spec's worked examples.
example : Admonitions.ClassifyingBlockQuote
    Admonitions.LegacyBlockQuoteClassifier "This is a NOTE:" =
    Admonitions.BlockQuoteType.Note := by decide

example : Admonitions.ClassifyingBlockQuote
    Admonitions.LegacyBlockQuoteClassifier "nothing special" =
    Admonitions.BlockQuoteType.None := by decide

example : Admonitions.ClassifyingBlockQuote
    Admonitions.GHAlertsBlockQuoteClassifier "!WARNING" =
    Admonitions.BlockQuoteType.Note := by decide

example : Admonitions.ParseBlockQuoteType
    (.mk .blockquote "" [] none
      (.cons (.mk .paragraph "" [] none
        (.cons (.mk .text "Note: remember this" [] none .nil) .nil)) .nil)) =
    Admonitions.BlockQuoteType.Note := by rfl

-- bracket-alert recovery inside a paragraph
example : Admonitions.ParseBlockQuoteType
    (.mk .blockquote "" [] none
      (.cons (.mk .paragraph "" [] none
        (Admonitions.forest
          [.mk .text "[" [] none .nil,
           .mk .text "!TIP" [] none .nil,
           .mk .text "]" [] none .nil])) .nil)) =
    Admonitions.BlockQuoteType.Tip := by rfl

-- overwrite of a non-None classification by a later sibling (C3)
example : Admonitions.ParseBlockQuoteType
    (.mk .blockquote "" [] none
      (Admonitions.forest
        [.mk .text "note" [] none .nil,
         .mk .text "x" [] none .nil])) =
    Admonitions.BlockQuoteType.None := by rfl

-- levels: document [ bq [ para [ bq [] ] ] ]
example : Admonitions.GenerateBlockQuoteLevel
    (.mk .document "" [] none
      (.cons (.mk .blockquote "" [] none
        (.cons (.mk .paragraph "" [] none
          (.cons (.mk .blockquote "" [] none .nil) .nil)) .nil)) .nil)) =
    [([0], 0), ([0, 0, 0], 1)] := by rfl

example : Admonitions.Level [([0], 0), ([0, 0, 0], 1)] [5] = 0 := by rfl

-- renderAdmon macro branch on a depth-0 admonition node
example : Admonitions.renderAdmon none
    (.mk .document "" [] none
      (.cons (.mk .admonition "" [] none
        (.cons (.mk .paragraph "" [] none
          (.cons (.mk .text "Note: hi" [] none .nil) .nil)) .nil)) .nil))
    [0]
    (.mk .admonition "" [] none
      (.cons (.mk .paragraph "" [] none
        (.cons (.mk .text "Note: hi" [] none .nil) .nil)) .nil))
    true ⟨[], []⟩ =
    (some [], some (⟨[], ["<ac:structured-macro ac:name=\"note\"><ac:parameter ac:name=\"icon\">true</ac:parameter><ac:rich-text-body>\n"]⟩,
      .walkContinue, false)) := by rfl
